import Mathlib

/-!
Verification development for the WinCup Mold Analysis system
(`wincup.py`, `frames.py`).

The Python source is shallowly embedded below:

* images are lists of 8-bit channel samples (naturals, hypotheses bound
  them by 255 where uint8-ness matters);
* the numpy/OpenCV array operations used by the source (`absdiff`,
  `threshold` with `THRESH_BINARY`, elementwise float accumulation,
  `numpy.round`, the `uint8` cast, `findContours` with `RETR_EXTERNAL`
  followed by `boundingRect`) are given their documented elementwise /
  connected-component semantics, with float arithmetic modelled exactly
  over `ℚ`;
* GPIO devices (`gpiozero` LEDs and the trigger switch) are modelled as
  option-valued lines: `none` is a closed (released) device, `some b` an
  open device whose output is `b`;
* the observable steps of `DifferenceFrame.run_dif` and
  `CalibrationFrame.calibrate_start` are modelled as effect traces, and
  the files those methods create and delete as a set of file names.
-/

/-! ## Calibration averaging (`CalibrationFrame.calibrate_start`, wincup.py 552-567) -/

/-- Semantics of `numpy.round` at integer precision: round to the nearest
integer, rounding exact halves to the even integer (numpy uses round-half-to-even). -/
def npRound (q : ℚ) : ℤ :=
  if Int.fract q < 1/2 then ⌊q⌋
  else if 1/2 < Int.fract q then ⌊q⌋ + 1
  else if 2 ∣ ⌊q⌋ then ⌊q⌋ else ⌊q⌋ + 1

/-- Semantics of the numpy cast `astype(uint8)` applied to an integral value:
the value is reduced modulo 256. -/
def uint8cast (z : ℤ) : ℕ := (z % 256).toNat

/-- Clamping an integer to the representable 8-bit range [0,255]
(the spec's description of the final step of calibration). -/
def clamp255 (z : ℤ) : ℕ :=
  if z ≤ 0 then 0 else if 255 ≤ z then 255 else z.toNat

/-- One step of the incremental accumulation `avgImgArr = avgImgArr + imgArr / N`
(wincup.py 562-564), elementwise over the flattened channel samples. -/
def accumStep (N : ℕ) (acc : List ℚ) (f : List ℕ) : List ℚ :=
  List.zipWith (fun (a : ℚ) (v : ℕ) => a + (v : ℚ) / (N : ℚ)) acc f

/-- The averaging stage of `CalibrationFrame.calibrate_start` (wincup.py 555-566):
starting from a zero array shaped like the first frame, add `frame / N` for each
of the `N` frames, then apply `numpy.round` and the `uint8` cast elementwise.
An empty frame list makes the source crash at `images[0]` (wincup.py 559),
modelled as `none`. -/
def calibrate (frames : List (List ℕ)) : Option (List ℕ) :=
  match frames with
  | [] => none
  | f0 :: _ =>
    some (((frames.foldl (accumStep frames.length) (List.replicate f0.length 0)).map
      (fun q => uint8cast (npRound q))))

/-- Sum, over the frame list, of the channel sample at flat index `i`. -/
def pixelSum (frames : List (List ℕ)) (i : ℕ) : ℕ :=
  (frames.map (fun f => f.getD i 0)).sum

/-! ## Detection pipeline (`DifferenceFrame.run_dif`, wincup.py 654-691) -/

/-- Semantics of `cv2.absdiff` on one pair of uint8 samples: the absolute
difference (saturation never triggers for same-width inputs). -/
def absdiff (a b : ℕ) : ℕ := max a b - min a b

/-- Elementwise `cv2.absdiff(base_gray, image_gray)` (wincup.py 668) on
grayscale images given as rows of samples. -/
def diffImage (base frame : List (List ℕ)) : List (List ℕ) :=
  List.zipWith (List.zipWith absdiff) base frame

/-- Semantics of `cv2.threshold(·, sens, 255, cv2.THRESH_BINARY)` at one pixel
(wincup.py 669): 255 when the value strictly exceeds the threshold, else 0. -/
def threshBinary (sens d : ℕ) : ℕ := if sens < d then 255 else 0

/-- The whole thresholded image of wincup.py 669. -/
def threshImage (sens : ℕ) (diff : List (List ℕ)) : List (List ℕ) :=
  diff.map (List.map (threshBinary sens))

/-- Coordinates (row, column) of the nonzero pixels of a binary image;
`cv2.findContours` treats exactly the nonzero pixels as foreground. -/
def foregroundPts (img : List (List ℕ)) : List (ℕ × ℕ) :=
  (List.range img.length).flatMap (fun r =>
    (List.range (img.getD r []).length).filterMap (fun c =>
      if (img.getD r []).getD c 0 ≠ 0 then some (r, c) else none))

/-- The 8-adjacency used by `cv2.findContours` to connect foreground pixels:
Chebyshev distance at most 1. -/
def adj8 (p q : ℕ × ℕ) : Bool :=
  (max p.1 q.1 - min p.1 q.1 ≤ 1) && (max p.2 q.2 - min p.2 q.2 ≤ 1)

/-- Insert one point into a partition of the points seen so far into
8-connected components: every existing component the point touches is merged
with it. -/
def addPt (comps : List (List (ℕ × ℕ))) (p : ℕ × ℕ) : List (List (ℕ × ℕ)) :=
  let t := comps.partition (fun c => c.any (adj8 p))
  (p :: t.1.flatten) :: t.2

/-- The 8-connected components of a set of foreground points. This models
`cv2.findContours(·, cv2.RETR_EXTERNAL, cv2.CHAIN_APPROX_SIMPLE)`
(wincup.py 670) for images without nested contours: one external contour per
connected foreground component (boundary compression does not change bounding
rectangles). -/
def components (pts : List (ℕ × ℕ)) : List (List (ℕ × ℕ)) :=
  pts.foldl addPt []

/-- A candidate region: the axis-aligned bounding rectangle returned by
`cv2.boundingRect` (wincup.py 674). -/
structure Rect where
  x : ℕ
  y : ℕ
  w : ℕ
  h : ℕ
deriving DecidableEq, Repr

/-- Semantics of `cv2.boundingRect` on a point set given as (row, column)
pairs: minimal column and row, and the inclusive extents. -/
def boundingRect : List (ℕ × ℕ) → Rect
  | [] => ⟨0, 0, 0, 0⟩
  | p :: ps =>
    { x := ps.foldl (fun a q => min a q.2) p.2
      y := ps.foldl (fun a q => min a q.1) p.1
      w := ps.foldl (fun a q => max a q.2) p.2 - ps.foldl (fun a q => min a q.2) p.2 + 1
      h := ps.foldl (fun a q => max a q.1) p.1 - ps.foldl (fun a q => min a q.1) p.1 + 1 }

/-- The noise-suppression size filter of wincup.py 675: `w > 35 and h > 35`. -/
def keepRect (r : Rect) : Bool := 35 < r.w && 35 < r.h

/-- The kept candidate regions of one detection cycle. -/
def filterRects (rs : List Rect) : List Rect := rs.filter keepRect

/-- The full region pipeline of `run_dif` (wincup.py 668-677): absolute
difference, binarisation at the sensitivity, external contours, bounding
rectangles, minimum-size filter. -/
def keptRects (base frame : List (List ℕ)) (sens : ℕ) : List Rect :=
  filterRects ((components (foregroundPts (threshImage sens (diffImage base frame)))).map
    boundingRect)

/-- The counter `obj` of wincup.py 672-677: the number of kept regions. -/
def objCount (base frame : List (List ℕ)) (sens : ℕ) : ℕ :=
  (keptRects base frame sens).length

/-- Truthiness of `obj` in `if obj:` (wincup.py 679): at least one kept region. -/
def hasDefect (obj : ℕ) : Bool := obj != 0

/-! ## GPIO devices (`DifferenceFrame`, wincup.py 632-637, 660-684, 722-729) -/

/-- The hardware lines held by `DifferenceFrame` while the inspection screen is
open. Each LED line is `none` when the device is closed (released) and
`some b` when it is open with output `b`; `switch` records whether the trigger
listener is held. -/
structure HW where
  red : Option Bool
  green : Option Bool
  flash : Option Bool
  switch : Bool
deriving DecidableEq, Repr

/-- Turning an open LED on (`LED.on()`); a closed device has no output. -/
def setOn : Option Bool → Option Bool
  | some _ => some true
  | none => none

/-- Turning an open LED off (`LED.off()`). -/
def setOff : Option Bool → Option Bool
  | some _ => some false
  | none => none

/-- Whether a line is currently driving its output high. -/
def isOn : Option Bool → Bool
  | some b => b
  | none => false

/-- Releasing a device (`Device.close()` in gpiozero): the line stops being
driven and the handle is freed. -/
def closeDev : Option Bool → Option Bool := fun _ => none

/-- Hardware state created by `init_inprogress` (wincup.py 632-637): the switch
listener is registered and all three LEDs are open and off (gpiozero LEDs
start off). -/
def hwInit : HW := ⟨some false, some false, some false, true⟩

/-- The LED effects of one `run_dif` call (wincup.py 660-684) given the kept
count `obj`: flash on around the capture, flash off, then red on / green off
when `obj` is truthy and red off / green on otherwise. -/
def runDifLeds (obj : ℕ) (s : HW) : HW :=
  if obj ≠ 0 then
    { red := setOn s.red, green := setOff s.green
      flash := setOff (setOn s.flash), switch := s.switch }
  else
    { red := setOff s.red, green := setOn s.green
      flash := setOff (setOn s.flash), switch := s.switch }

/-- Hardware state after a sequence of detection cycles starting from the
state `init_inprogress` builds. -/
def traceState (objs : List ℕ) : HW :=
  objs.foldl (fun s o => runDifLeds o s) hwInit

/-- The teardown in `inprogress2main` (wincup.py 726-729): `led_r.close()`,
`led_g.close()`, `led_flash.close()`, `switch.close()`. -/
def teardown (s : HW) : HW :=
  { red := closeDev s.red
    green := closeDev s.green
    flash := closeDev s.flash
    switch := false }

/-! ## Observable effect traces (wincup.py 538-580, 654-691) -/

/-- Externally observable steps of the capture paths. `reject` stands for a
call-boundary rejection; the source never performs one. -/
inductive Effect where
  | progressStart
  | readBaseline
  | cameraOpen
  | flashOn
  | capture
  | flashOff
  | detect
  | ledUpdate
  | display
  | progressStop
  | reject
deriving DecidableEq, Repr

/-- The step sequence of `DifferenceFrame.run_dif` (wincup.py 654-691). The
sensitivity read from the slider is used only inside the `detect` step; no
branch inspects it before the camera is opened and the capture taken. -/
def runDifTrace (_sens : ℤ) : List Effect :=
  [Effect.progressStart, Effect.readBaseline, Effect.cameraOpen, Effect.flashOn,
   Effect.capture, Effect.flashOff, Effect.detect, Effect.ledUpdate,
   Effect.display, Effect.progressStop]

/-- The step sequence of `CalibrationFrame.calibrate_start` up to the averaging
(wincup.py 541-546): the camera is opened first, then `count` captures run; no
branch inspects `count` before the camera is opened. -/
def calibrateTrace (count : ℕ) : List Effect :=
  Effect.cameraOpen :: (List.range count).map (fun _ => Effect.capture)

/-- Semantics of the tk `Scale` widget of wincup.py 617 (`from_=0, to=50`): the
variable it drives is clamped to the configured range. -/
def scaleSens (v : ℤ) : ℤ := max 0 (min 50 v)

/-- The calibration counts offered by the radio buttons of wincup.py 502-504,
together with the initial value 10 of `num_total` (wincup.py 489). -/
def calibrationCounts : List ℕ := [10, 15, 20]

/-! ## Camera-setting frames (`frames.py`) -/

/-- Constant `BRI_DELTA` (frames.py 5). -/
def BRI_DELTA : ℤ := 5

/-- Constant `SHU_DELTA` (frames.py 8). -/
def SHU_DELTA : ℤ := 100

/-- Constant `SHU_MIN` (frames.py 9). -/
def SHU_MIN : ℤ := 1000

/-- Constant `SHU_MAX` (frames.py 10). -/
def SHU_MAX : ℤ := 3000

/-- `BrightnessFrame.add` (frames.py 53-64): the new stored value. -/
def briAdd (val : ℤ) : ℤ :=
  if val ≥ 100 - BRI_DELTA then 100
  else if val < 100 - BRI_DELTA ∧ val ≥ 0 then val + BRI_DELTA
  else 0

/-- `BrightnessFrame.sub` (frames.py 66-77): the new stored value. -/
def briSub (val : ℤ) : ℤ :=
  if val > 100 then 100
  else if val ≤ 100 ∧ val ≥ BRI_DELTA + 0 then val - BRI_DELTA
  else 0

/-- `ShutterSpeedFrame.sub` (frames.py 311-322). The final branch evaluates the
undefined name `vSHU_MIN` (frames.py 319), which raises `NameError` in Python;
that branch is modelled as an error value. -/
def shutterSub (val : ℤ) : Except String ℤ :=
  if val > SHU_MAX then Except.ok SHU_MAX
  else if val ≤ SHU_MAX ∧ val ≥ SHU_DELTA + SHU_MIN then Except.ok (val - SHU_DELTA)
  else Except.error "NameError: name vSHU_MIN is not defined"

/-! ## Calibration temporary files (`CalibrationFrame.calibrate_start`, wincup.py 543-574) -/

/-- The file name `'img{:0>2}.jpg'.format(i)` (wincup.py 545): the index is
zero-padded on the left to width 2. -/
def imgName (i : ℕ) : String :=
  "img" ++ (if i < 10 then "0" ++ toString i else toString i) ++ ".jpg"

/-- Creating (or overwriting) a file, modelling `camera.capture(fn, ...)` and
`avgImg.save(fn)` on a file system represented as the list of existing names. -/
def addFile (fs : List String) (f : String) : List String :=
  if f ∈ fs then fs else fs ++ [f]

/-- Deleting a file, modelling `os.remove(fn)`. -/
def removeFile (fs : List String) (f : String) : List String :=
  fs.filter (fun g => g ≠ f)

/-- The file-system effect of a successful `calibrate_start` over `n` captures
(wincup.py 541-574): capture `img01.jpg .. imgNN.jpg`, save `average.jpg`,
then delete every `imgXX.jpg`. With `n = 0` the source crashes at `images[0]`
before saving anything, modelled as `none`. -/
def calibrationRun (n : ℕ) (fs : List String) : Option (List String) :=
  if n = 0 then none
  else
    some ((List.range' 1 n).foldl (fun s i => removeFile s (imgName i))
      (addFile ((List.range' 1 n).foldl (fun s i => addFile s (imgName i)) fs)
        "average.jpg"))

/-! ## Concrete images witnessing non-monotonicity of the kept-region count -/

/-- Pixel values of a dumbbell-shaped test frame on a 38×38 grid: two
L-shaped strokes of intensity 200, each with a 36×36 bounding box, joined
through the single pixel (1, 36) of intensity 100. -/
def cexVal (r c : ℕ) : ℕ :=
  if (r = 0 ∧ c ≤ 35) ∨ (c = 0 ∧ r ≤ 35) then 200
  else if (r = 37 ∧ 2 ≤ c) ∨ (c = 37 ∧ 2 ≤ r) then 200
  else if r = 1 ∧ c = 36 then 100 else 0

/-- The 38×38 test frame built from `cexVal`. -/
def cexFrame : List (List ℕ) :=
  (List.range 38).map (fun r => (List.range 38).map (fun c => cexVal r c))

/-- An all-black 38×38 baseline. -/
def cexBase : List (List ℕ) := List.replicate 38 (List.replicate 38 0)

/-! ## Helper lemmas about rounding and clamping -/

/-- The fractional part spelled out as a subtraction. -/
theorem fract_sub_floor (q : ℚ) : Int.fract q = q - ⌊q⌋ := (Int.self_sub_floor q).symm

/-- A nonnegative rational rounds to a nonnegative integer. -/
theorem npRound_nonneg (q : ℚ) (h : 0 ≤ q) : 0 ≤ npRound q := by
  unfold npRound
  have h0 : 0 ≤ ⌊q⌋ := Int.floor_nonneg.mpr h
  split_ifs <;> omega

/-- A rational at most 255 rounds to an integer at most 255. -/
theorem npRound_le (q : ℚ) (h : q ≤ 255) : npRound q ≤ 255 := by
  unfold npRound
  have h255 : ⌊q⌋ ≤ 255 := by
    have h2 := Int.floor_le_floor (α := ℚ) h
    norm_num at h2
    exact h2
  have key : ¬ Int.fract q < 1/2 → ⌊q⌋ + 1 ≤ 255 := by
    intro hge
    push_neg at hge
    rw [fract_sub_floor] at hge
    have hq : (⌊q⌋ : ℚ) < 255 := by linarith
    have hz : ⌊q⌋ < 255 := by exact_mod_cast hq
    omega
  split_ifs with h1 h2 h3
  · exact h255
  · exact key h1
  · exact h255
  · exact key h1

/-- The rounding used by `numpy.round` picks a nearest integer: it is never
further than 1/2 from its argument. -/
theorem npRound_nearest (q : ℚ) : |q - (npRound q : ℚ)| ≤ 1/2 := by
  have hfl : (⌊q⌋ : ℚ) ≤ q := Int.floor_le q
  have hlt : q < ⌊q⌋ + 1 := Int.lt_floor_add_one q
  unfold npRound
  split_ifs with ha hb hc
  · rw [fract_sub_floor] at ha
    rw [abs_le]
    constructor <;> linarith
  · rw [fract_sub_floor] at hb
    rw [abs_le]
    push_cast
    constructor <;> linarith
  · rw [fract_sub_floor] at ha hb
    push_neg at ha hb
    rw [abs_le]
    constructor <;> linarith
  · rw [fract_sub_floor] at ha hb
    push_neg at ha hb
    rw [abs_le]
    push_cast
    constructor <;> linarith

/-- For in-range values the wrapping `uint8` cast agrees with clamping. -/
theorem uint8cast_eq_clamp255 (z : ℤ) (h0 : 0 ≤ z) (h1 : z ≤ 255) :
    uint8cast z = clamp255 z := by
  unfold uint8cast clamp255
  split_ifs <;> omega

/-! ## Helper lemmas about list indexing -/

/-- Reading a `zipWith` at an in-bounds index. -/
theorem getD_zipWith {α β γ : Type} (f : α → β → γ) (a : List α) (b : List β)
    (da : α) (db : β) (dc : γ) (i : ℕ) (h1 : i < a.length) (h2 : i < b.length) :
    (List.zipWith f a b).getD i dc = f (a.getD i da) (b.getD i db) := by
  rw [List.getD_eq_getElem, List.getD_eq_getElem _ _ h1, List.getD_eq_getElem _ _ h2,
    List.getElem_zipWith]
  rw [List.length_zipWith]
  omega

/-- Reading a mapped list of rows at any index, when the function fixes the
default row. -/
theorem getD_map_rows {α β : Type} (l : List α) (g : α → β) (dA : α) (dB : β)
    (hg : g dA = dB) (r : ℕ) : (l.map g).getD r dB = g (l.getD r dA) := by
  rcases lt_or_ge r l.length with h | h
  · rw [List.getD_eq_getElem _ _ (by simpa using h), List.getD_eq_getElem _ _ h,
      List.getElem_map]
  · rw [List.getD_eq_default _ _ (by simpa using h), List.getD_eq_default _ _ h, hg]

/-- An in-bounds `getD` produces a member of the list. -/
theorem getD_mem {α : Type} (l : List α) (d : α) (i : ℕ) (h : i < l.length) :
    l.getD i d ∈ l := by
  rw [List.getD_eq_getElem _ _ h]
  exact List.getElem_mem h

/-! ## Helper lemmas about the detection pipeline -/

/-- The absolute difference of two samples is bounded by the larger one. -/
theorem absdiff_le (a b : ℕ) (ha : a ≤ 255) (hb : b ≤ 255) : absdiff a b ≤ 255 := by
  unfold absdiff
  omega

/-- Membership in the foreground point list of a binary image. -/
theorem mem_foregroundPts (img : List (List ℕ)) (r c : ℕ) :
    (r, c) ∈ foregroundPts img ↔
      r < img.length ∧ c < (img.getD r []).length ∧
        (img.getD r []).getD c 0 ≠ 0 := by
  unfold foregroundPts
  simp only [List.mem_flatMap, List.mem_range, List.mem_filterMap]
  constructor
  · rintro ⟨r1, hr1, c1, hc1, hsome⟩
    by_cases hnz : (img.getD r1 []).getD c1 0 ≠ 0
    · rw [if_pos hnz] at hsome
      obtain ⟨rfl, rfl⟩ := Prod.mk.injEq .. ▸ Option.some_injective _ hsome
      exact ⟨hr1, hc1, hnz⟩
    · rw [if_neg hnz] at hsome
      exact absurd hsome (by simp)
  · rintro ⟨h1, h2, h3⟩
    exact ⟨r, h1, c, h2, by rw [if_pos h3]⟩

/-- A thresholded sample is nonzero exactly when the difference strictly
exceeds the sensitivity. -/
theorem threshBinary_ne_zero (s v : ℕ) : threshBinary s v ≠ 0 ↔ s < v := by
  unfold threshBinary
  split_ifs with h <;> simp [h]

/-- Membership in the foreground of a thresholded difference image, reduced to
a strict comparison with the sensitivity. -/
theorem mem_fg_threshImage (s : ℕ) (dimg : List (List ℕ)) (r c : ℕ) :
    (r, c) ∈ foregroundPts (threshImage s dimg) ↔
      r < dimg.length ∧ c < (dimg.getD r []).length ∧
        s < (dimg.getD r []).getD c 0 := by
  rw [mem_foregroundPts]
  unfold threshImage
  rw [getD_map_rows dimg (List.map (threshBinary s)) [] [] rfl r]
  rw [getD_map_rows (dimg.getD r []) (threshBinary s) 0 0
    (by unfold threshBinary; simp) c]
  rw [List.length_map, List.length_map]
  rw [threshBinary_ne_zero]

/-- A pixel is foreground in the detection pipeline exactly when the absolute
luminance difference at that pixel strictly exceeds the sensitivity. -/
theorem mem_fg_detect (b f : List (List ℕ)) (sens r c : ℕ)
    (hr1 : r < b.length) (hr2 : r < f.length)
    (hc1 : c < (b.getD r []).length) (hc2 : c < (f.getD r []).length) :
    (r, c) ∈ foregroundPts (threshImage sens (diffImage b f)) ↔
      sens < absdiff ((b.getD r []).getD c 0) ((f.getD r []).getD c 0) := by
  rw [mem_fg_threshImage]
  have hrow : (diffImage b f).getD r [] = List.zipWith absdiff (b.getD r []) (f.getD r []) :=
    getD_zipWith _ b f [] [] [] r hr1 hr2
  have hlen : r < (diffImage b f).length := by
    unfold diffImage
    rw [List.length_zipWith]
    omega
  have hclen : c < ((diffImage b f).getD r []).length := by
    rw [hrow, List.length_zipWith]
    omega
  have hval : ((diffImage b f).getD r []).getD c 0 =
      absdiff ((b.getD r []).getD c 0) ((f.getD r []).getD c 0) := by
    rw [hrow]
    exact getD_zipWith absdiff _ _ 0 0 0 c hc1 hc2
  rw [hval]
  constructor
  · rintro ⟨-, -, h⟩
    exact h
  · intro h
    exact ⟨hlen, hclen, h⟩

/-- A sample read from a uint8 image is at most 255. -/
theorem getD_le_255 (img : List (List ℕ)) (hv : ∀ row ∈ img, ∀ v ∈ row, v ≤ 255)
    (r c : ℕ) (hr : r < img.length) (hc : c < (img.getD r []).length) :
    (img.getD r []).getD c 0 ≤ 255 :=
  hv _ (getD_mem img [] r hr) _ (getD_mem _ 0 c hc)

/-! ## Helper lemmas about the incremental average -/

/-- One accumulation step keeps the shorter of the two lengths. -/
theorem accumStep_length (N : ℕ) (acc : List ℚ) (f : List ℕ) :
    (accumStep N acc f).length = min acc.length f.length := by
  unfold accumStep
  rw [List.length_zipWith]

/-- The accumulator keeps its length across all frames of the right shape. -/
theorem foldl_accum_length (N : ℕ) (frames : List (List ℕ)) (d : ℕ) :
    ∀ acc : List ℚ, acc.length = d → (∀ f ∈ frames, f.length = d) →
      (frames.foldl (accumStep N) acc).length = d := by
  induction frames with
  | nil =>
    intro acc ha _
    simpa using ha
  | cons f fs ih =>
    intro acc ha hf
    rw [List.foldl_cons]
    apply ih
    · rw [accumStep_length, ha, hf f (by simp)]
      omega
    · intro g hg
      exact hf g (by simp [hg])

/-- Incrementally accumulating `frame / N` over the frame list produces, at
every channel, the channel sum divided by `N`. -/
theorem foldl_accum_getD (N : ℕ) (frames : List (List ℕ)) (d : ℕ) (i : ℕ) (hi : i < d) :
    ∀ acc : List ℚ, acc.length = d → (∀ f ∈ frames, f.length = d) →
      (frames.foldl (accumStep N) acc).getD i 0 =
        acc.getD i 0 + (pixelSum frames i : ℚ) / (N : ℚ) := by
  induction frames with
  | nil =>
    intro acc _ _
    simp [pixelSum]
  | cons f fs ih =>
    intro acc ha hf
    have hlenf : f.length = d := hf f (by simp)
    have hstep : (accumStep N acc f).length = d := by
      rw [accumStep_length, ha, hlenf]
      omega
    rw [List.foldl_cons, ih (accumStep N acc f) hstep (fun g hg => hf g (by simp [hg]))]
    have hv : (accumStep N acc f).getD i 0 = acc.getD i 0 + ((f.getD i 0 : ℕ) : ℚ) / N := by
      unfold accumStep
      exact getD_zipWith (fun (a : ℚ) (v : ℕ) => a + (v : ℚ) / (N : ℚ)) acc f
        (0 : ℚ) (0 : ℕ) (0 : ℚ) i (by omega) (by omega)
    have hsum : pixelSum (f :: fs) i = f.getD i 0 + pixelSum fs i := by
      unfold pixelSum
      simp
    rw [hv, hsum]
    push_cast
    ring

/-- The channel sum over frames of uint8 samples is at most `255 * N`. -/
theorem pixelSum_le (frames : List (List ℕ)) (i : ℕ) :
    (∀ f ∈ frames, ∀ v ∈ f, v ≤ 255) → pixelSum frames i ≤ 255 * frames.length := by
  induction frames with
  | nil =>
    intro _
    simp [pixelSum]
  | cons f fs ih =>
    intro hv
    have h1 : f.getD i 0 ≤ 255 := by
      rcases lt_or_ge i f.length with h | h
      · exact hv f (by simp) _ (getD_mem f 0 i h)
      · rw [List.getD_eq_default _ _ h]
        omega
    have h2 := ih (fun g hg => hv g (by simp [hg]))
    have hsum : pixelSum (f :: fs) i = f.getD i 0 + pixelSum fs i := by
      unfold pixelSum
      simp
    rw [hsum, List.length_cons]
    omega

/-! ## Helper lemmas about the GPIO model -/

/-- Turning a line off never leaves it driving high. -/
theorem isOn_setOff (x : Option Bool) : isOn (setOff x) = false := by
  cases x <;> rfl

/-- Turning a line on or off does not open or close it. -/
theorem isSome_setOn (x : Option Bool) : (setOn x).isSome = x.isSome := by
  cases x <;> rfl

/-- Turning a line off does not open or close it. -/
theorem isSome_setOff (x : Option Bool) : (setOff x).isSome = x.isSome := by
  cases x <;> rfl

/-- Turning an open line on leaves it driving high. -/
theorem isOn_setOn_of_isSome (x : Option Bool) (h : x.isSome = true) :
    isOn (setOn x) = true := by
  cases x
  · simp at h
  · rfl

/-- After any detection cycle the alert and ok lines are never both on. -/
theorem runDifLeds_not_both (o : ℕ) (s : HW) :
    ¬(isOn (runDifLeds o s).red = true ∧ isOn (runDifLeds o s).green = true) := by
  unfold runDifLeds
  split_ifs with h <;> simp [isOn_setOff]

/-- Detection cycles keep the alert and ok lines open. -/
theorem foldl_leds_isSome (objs : List ℕ) :
    ∀ s : HW, s.red.isSome = true → s.green.isSome = true →
      ((objs.foldl (fun t o => runDifLeds o t) s).red.isSome = true ∧
       (objs.foldl (fun t o => runDifLeds o t) s).green.isSome = true) := by
  induction objs with
  | nil =>
    intro s h1 h2
    exact ⟨h1, h2⟩
  | cons o os ih =>
    intro s h1 h2
    rw [List.foldl_cons]
    apply ih
    · unfold runDifLeds
      split_ifs <;> simp [isSome_setOn, isSome_setOff, h1]
    · unfold runDifLeds
      split_ifs <;> simp [isSome_setOn, isSome_setOff, h2]

/-- Once the alert and ok lines are not both on, no sequence of detection
cycles can make them both on. -/
theorem foldl_leds_not_both (objs : List ℕ) :
    ∀ s : HW, ¬(isOn s.red = true ∧ isOn s.green = true) →
      ¬(isOn (objs.foldl (fun t o => runDifLeds o t) s).red = true ∧
        isOn (objs.foldl (fun t o => runDifLeds o t) s).green = true) := by
  induction objs with
  | nil =>
    intro s h
    exact h
  | cons o os ih =>
    intro s _
    rw [List.foldl_cons]
    exact ih _ (runDifLeds_not_both o s)

/-! ## Helper lemmas about the file-system model -/

/-- Membership after creating a file. -/
theorem mem_addFile (fs : List String) (f g : String) :
    g ∈ addFile fs f ↔ g ∈ fs ∨ g = f := by
  unfold addFile
  split_ifs with h
  · constructor
    · exact Or.inl
    · rintro (h1 | rfl)
      · exact h1
      · exact h
  · simp

/-- Membership after deleting a file. -/
theorem mem_removeFile (fs : List String) (f g : String) :
    g ∈ removeFile fs f ↔ g ∈ fs ∧ g ≠ f := by
  unfold removeFile
  simp [List.mem_filter]

/-- Membership after creating the whole batch of capture files. -/
theorem mem_foldl_addFile (l : List ℕ) (nm : ℕ → String) :
    ∀ (fs : List String) (g : String),
      g ∈ l.foldl (fun s i => addFile s (nm i)) fs ↔ g ∈ fs ∨ ∃ i ∈ l, g = nm i := by
  induction l with
  | nil =>
    intro fs g
    simp
  | cons a l ih =>
    intro fs g
    rw [List.foldl_cons, ih, mem_addFile]
    constructor
    · rintro ((h1 | h2) | ⟨i, hi, rfl⟩)
      · exact Or.inl h1
      · exact Or.inr ⟨a, by simp, h2⟩
      · exact Or.inr ⟨i, by simp [hi], rfl⟩
    · rintro (h1 | ⟨i, hi, rfl⟩)
      · exact Or.inl (Or.inl h1)
      · rcases List.mem_cons.mp hi with rfl | hi2
        · exact Or.inl (Or.inr rfl)
        · exact Or.inr ⟨i, hi2, rfl⟩

/-- Membership after deleting the whole batch of capture files. -/
theorem mem_foldl_removeFile (l : List ℕ) (nm : ℕ → String) :
    ∀ (fs : List String) (g : String),
      g ∈ l.foldl (fun s i => removeFile s (nm i)) fs ↔ g ∈ fs ∧ ∀ i ∈ l, g ≠ nm i := by
  induction l with
  | nil =>
    intro fs g
    simp
  | cons a l ih =>
    intro fs g
    rw [List.foldl_cons, ih, mem_removeFile]
    constructor
    · rintro ⟨⟨h1, h2⟩, h3⟩
      refine ⟨h1, ?_⟩
      intro i hi
      rcases List.mem_cons.mp hi with rfl | hi2
      · exact h2
      · exact h3 i hi2
    · rintro ⟨h1, h2⟩
      exact ⟨⟨h1, h2 a (by simp)⟩, fun i hi => h2 i (by simp [hi])⟩

/-- No capture file is called `average.jpg`: capture file names start with the
character `i`. -/
theorem imgName_ne_average (i : ℕ) : imgName i ≠ "average.jpg" := by
  intro h
  have hd := congrArg (fun s => s.data.head?) h
  unfold imgName at hd
  split_ifs at hd <;> simp [String.data_append] at hd

/-! ## Claim theorems -/

/-- C1: for every successful calibration over frames of identical dimensions
holding uint8 samples, `calibrate` succeeds and every channel of the baseline
equals the per-channel mean of the frames' samples, rounded to a nearest
integer (numpy round-half-to-even, never further than 1/2 from the mean) and
clamped to [0,255]; the value is produced by the incremental `frame/N`
accumulation the code performs. -/
theorem calibrate_mean (frames : List (List ℕ)) (d : ℕ)
    (hne : frames ≠ [])
    (hdim : ∀ f ∈ frames, f.length = d)
    (hval : ∀ f ∈ frames, ∀ v ∈ f, v ≤ 255) :
    ∃ out : List ℕ, calibrate frames = some out ∧ out.length = d ∧
      ∀ i, i < d →
        out.getD i 0 =
          clamp255 (npRound ((pixelSum frames i : ℚ) / (frames.length : ℚ))) ∧
        |((pixelSum frames i : ℚ) / (frames.length : ℚ)) -
          (npRound ((pixelSum frames i : ℚ) / (frames.length : ℚ)) : ℚ)| ≤ 1/2 := by
  rcases frames with _ | ⟨f0, rest⟩
  · exact absurd rfl hne
  · have hd0 : f0.length = d := hdim f0 (by simp)
    have hcal : calibrate (f0 :: rest) =
        some (((f0 :: rest).foldl (accumStep (f0 :: rest).length)
          (List.replicate d 0)).map (fun q => uint8cast (npRound q))) := by
      simp only [calibrate, hd0]
    have hlen : ((f0 :: rest).foldl (accumStep (f0 :: rest).length)
        (List.replicate d 0)).length = d :=
      foldl_accum_length _ _ _ _ (by simp) hdim
    refine ⟨_, hcal, by rw [List.length_map, hlen], ?_⟩
    intro i hi
    have hacc : ((f0 :: rest).foldl (accumStep (f0 :: rest).length)
        (List.replicate d 0)).getD i 0 =
        (pixelSum (f0 :: rest) i : ℚ) / (((f0 :: rest).length : ℕ) : ℚ) := by
      rw [foldl_accum_getD _ _ d i hi _ (by simp) hdim]
      rw [List.getD_eq_getElem _ _ (by simpa using hi)]
      simp
    have hout : (((f0 :: rest).foldl (accumStep (f0 :: rest).length)
        (List.replicate d 0)).map (fun q => uint8cast (npRound q))).getD i 0 =
        uint8cast (npRound ((pixelSum (f0 :: rest) i : ℚ) /
          (((f0 :: rest).length : ℕ) : ℚ))) := by
      rw [List.getD_eq_getElem _ _ (by rw [List.length_map, hlen]; exact hi),
        List.getElem_map, ← hacc, List.getD_eq_getElem _ _ (by rw [hlen]; exact hi)]
    have hN : (0 : ℚ) < (((f0 :: rest).length : ℕ) : ℚ) := by
      have h1 : 0 < (f0 :: rest).length := by simp
      exact_mod_cast h1
    have hS : pixelSum (f0 :: rest) i ≤ 255 * (f0 :: rest).length := pixelSum_le _ i hval
    have hq0 : 0 ≤ (pixelSum (f0 :: rest) i : ℚ) / (((f0 :: rest).length : ℕ) : ℚ) :=
      div_nonneg (by positivity) (le_of_lt hN)
    have hq255 : (pixelSum (f0 :: rest) i : ℚ) / (((f0 :: rest).length : ℕ) : ℚ) ≤ 255 := by
      rw [div_le_iff₀ hN]
      exact_mod_cast hS
    constructor
    · rw [hout, uint8cast_eq_clamp255 _ (npRound_nonneg _ hq0) (npRound_le _ hq255)]
    · exact npRound_nearest _

/-- Witness for C1 at two concrete frames with channel means 0.5, 252.5
and 15: the tie cases round to the even values 0 and 252. -/
theorem calibrate_mean_witness :
    ∃ out : List ℕ, calibrate [[0, 255, 10], [1, 250, 20]] = some out ∧ out.length = 3 ∧
      ∀ i, i < 3 →
        out.getD i 0 =
          clamp255 (npRound ((pixelSum [[0, 255, 10], [1, 250, 20]] i : ℚ) /
            (([[0, 255, 10], [1, 250, 20]] : List (List ℕ)).length : ℚ))) ∧
        |((pixelSum [[0, 255, 10], [1, 250, 20]] i : ℚ) /
            (([[0, 255, 10], [1, 250, 20]] : List (List ℕ)).length : ℚ)) -
          (npRound ((pixelSum [[0, 255, 10], [1, 250, 20]] i : ℚ) /
            (([[0, 255, 10], [1, 250, 20]] : List (List ℕ)).length : ℚ)) : ℚ)| ≤ 1/2 :=
  calibrate_mean [[0, 255, 10], [1, 250, 20]] 3 (by decide) (by decide) (by decide)

/-- C2: in `run_dif` a pixel is classified foreground iff the absolute
luminance difference between baseline and frame strictly exceeds the
sensitivity; a difference exactly equal to the sensitivity is background, and
at sensitivity 255 no uint8 pixel is ever foreground. -/
theorem threshold_strict (base frame : List (List ℕ)) (sens r c : ℕ)
    (hr1 : r < base.length) (hr2 : r < frame.length)
    (hc1 : c < (base.getD r []).length) (hc2 : c < (frame.getD r []).length)
    (hb : ∀ row ∈ base, ∀ v ∈ row, v ≤ 255)
    (hf : ∀ row ∈ frame, ∀ v ∈ row, v ≤ 255) :
    ((r, c) ∈ foregroundPts (threshImage sens (diffImage base frame)) ↔
      sens < absdiff ((base.getD r []).getD c 0) ((frame.getD r []).getD c 0)) ∧
    (absdiff ((base.getD r []).getD c 0) ((frame.getD r []).getD c 0) = sens →
      (r, c) ∉ foregroundPts (threshImage sens (diffImage base frame))) ∧
    (r, c) ∉ foregroundPts (threshImage 255 (diffImage base frame)) := by
  have hiff := mem_fg_detect base frame sens r c hr1 hr2 hc1 hc2
  have hiff255 := mem_fg_detect base frame 255 r c hr1 hr2 hc1 hc2
  have hbd : absdiff ((base.getD r []).getD c 0) ((frame.getD r []).getD c 0) ≤ 255 :=
    absdiff_le _ _ (getD_le_255 base hb r c hr1 hc1) (getD_le_255 frame hf r c hr2 hc2)
  refine ⟨hiff, ?_, ?_⟩
  · intro heq hmem
    rw [hiff] at hmem
    omega
  · intro hmem
    rw [hiff255] at hmem
    omega

/-- Witness for C2 at a single pixel with luminance difference 50 and
sensitivity 49. -/
theorem threshold_strict_witness :
    ((0, 0) ∈ foregroundPts (threshImage 49 (diffImage [[10]] [[60]])) ↔
      49 < absdiff 10 60) ∧
    (absdiff 10 60 = 49 →
      (0, 0) ∉ foregroundPts (threshImage 49 (diffImage [[10]] [[60]]))) ∧
    (0, 0) ∉ foregroundPts (threshImage 255 (diffImage [[10]] [[60]])) :=
  threshold_strict [[10]] [[60]] 49 0 0 (by decide) (by decide) (by decide) (by decide)
    (by decide) (by decide)

/-- C3: a candidate region is kept iff both of its bounding-rectangle
dimensions strictly exceed 35; in particular 35×50 and 50×35 regions are
rejected while 36×36 and 36×50 regions are kept. -/
theorem size_filter_iff :
    (∀ (r : Rect) (rs : List Rect),
      r ∈ filterRects rs ↔ r ∈ rs ∧ 35 < r.w ∧ 35 < r.h) ∧
    keepRect ⟨0, 0, 35, 50⟩ = false ∧ keepRect ⟨0, 0, 50, 35⟩ = false ∧
    keepRect ⟨0, 0, 36, 36⟩ = true ∧ keepRect ⟨0, 0, 36, 50⟩ = true := by
  refine ⟨?_, by decide, by decide, by decide, by decide⟩
  intro r rs
  unfold filterRects keepRect
  rw [List.mem_filter]
  simp [and_assoc]

set_option maxRecDepth 100000 in
set_option maxHeartbeats 2000000 in
/-- C4 counterexample: against the all-black baseline, the dumbbell frame
yields one kept region at sensitivity 50 (the two strokes and the bridge form
one 38×38 component) but two kept regions at sensitivity 150 (the bridge pixel
drops out and each 36×36 stroke is kept separately), so raising the
sensitivity increased the kept-region count. -/
theorem kept_count_not_antitone_cex :
    (50 : ℕ) ≤ 150 ∧ objCount cexBase cexFrame 50 = 1 ∧
      objCount cexBase cexFrame 150 = 2 ∧
      ¬(objCount cexBase cexFrame 150 ≤ objCount cexBase cexFrame 50) := by
  decide

/-- C4 amended: for a fixed baseline and frame, raising the sensitivity
shrinks the foreground pointwise — every pixel foreground at the higher
sensitivity is foreground at the lower one — but the number of kept regions
need not decrease, because a foreground component may split into several
regions that each still pass the size filter. -/
theorem foreground_antitone (base frame : List (List ℕ)) (s₁ s₂ : ℕ) (h : s₁ ≤ s₂)
    (p : ℕ × ℕ) (hp : p ∈ foregroundPts (threshImage s₂ (diffImage base frame))) :
    p ∈ foregroundPts (threshImage s₁ (diffImage base frame)) := by
  obtain ⟨r, c⟩ := p
  rw [mem_fg_threshImage] at hp ⊢
  obtain ⟨h1, h2, h3⟩ := hp
  exact ⟨h1, h2, by omega⟩

/-- Witness for the amended C4 at a one-pixel image foreground at
sensitivities 50 and 10. -/
theorem foreground_antitone_witness :
    (10 : ℕ) ≤ 50 ∧
    ((0, 0) : ℕ × ℕ) ∈ foregroundPts (threshImage 50 (diffImage [[0]] [[100]])) ∧
    ((0, 0) : ℕ × ℕ) ∈ foregroundPts (threshImage 10 (diffImage [[0]] [[100]])) :=
  ⟨by decide, by decide,
    foreground_antitone [[0]] [[100]] 10 50 (by decide) (0, 0) (by decide)⟩

/-- C5: after every detection cycle the red (alert) LED is on iff at least one
region passed the size filter, the green (ok) LED is on iff none did, and at
no point — initially or after any sequence of cycles — are both LEDs on. -/
theorem indicator_signals (objs : List ℕ) (base frame : List (List ℕ)) (sens : ℕ) :
    (hasDefect (objCount base frame sens) = true ↔ keptRects base frame sens ≠ []) ∧
    isOn (runDifLeds (objCount base frame sens) (traceState objs)).red =
      hasDefect (objCount base frame sens) ∧
    isOn (runDifLeds (objCount base frame sens) (traceState objs)).green =
      (!hasDefect (objCount base frame sens)) ∧
    ¬(isOn (traceState objs).red = true ∧ isOn (traceState objs).green = true) ∧
    ¬(isOn (runDifLeds (objCount base frame sens) (traceState objs)).red = true ∧
      isOn (runDifLeds (objCount base frame sens) (traceState objs)).green = true) := by
  have hsome : (traceState objs).red.isSome = true ∧ (traceState objs).green.isSome = true :=
    foldl_leds_isSome objs hwInit rfl rfl
  obtain ⟨br, hbr⟩ := Option.isSome_iff_exists.mp hsome.1
  obtain ⟨bg, hbg⟩ := Option.isSome_iff_exists.mp hsome.2
  refine ⟨?_, ?_, ?_, ?_, runDifLeds_not_both _ _⟩
  · simp [hasDefect, objCount, bne_iff_ne, List.length_eq_zero]
  · by_cases ho : objCount base frame sens = 0
    · rw [ho]
      simp [runDifLeds, hbr, setOff, isOn, hasDefect]
    · simp [runDifLeds, ho, hbr, setOn, isOn, hasDefect, bne_iff_ne]
  · by_cases ho : objCount base frame sens = 0
    · rw [ho]
      simp [runDifLeds, hbg, setOn, isOn, hasDefect]
    · simp [runDifLeds, ho, hbg, setOff, isOn, hasDefect, bne_iff_ne]
  · exact foldl_leds_not_both objs hwInit (by decide)

/-- Witness for C5 after the cycles with kept counts 0 and 2, on a one-pixel
detection input. -/
theorem indicator_signals_witness :
    (hasDefect (objCount [[0]] [[0]] 0) = true ↔ keptRects [[0]] [[0]] 0 ≠ []) ∧
    isOn (runDifLeds (objCount [[0]] [[0]] 0) (traceState [0, 2])).red =
      hasDefect (objCount [[0]] [[0]] 0) ∧
    isOn (runDifLeds (objCount [[0]] [[0]] 0) (traceState [0, 2])).green =
      (!hasDefect (objCount [[0]] [[0]] 0)) ∧
    ¬(isOn (traceState [0, 2]).red = true ∧ isOn (traceState [0, 2]).green = true) ∧
    ¬(isOn (runDifLeds (objCount [[0]] [[0]] 0) (traceState [0, 2])).red = true ∧
      isOn (runDifLeds (objCount [[0]] [[0]] 0) (traceState [0, 2])).green = true) :=
  indicator_signals [0, 2] [[0]] [[0]] 0

/-- C6 counterexample: with the out-of-range sensitivity 300 the step trace of
`run_dif` still opens the camera, captures, and runs detection, and contains
no rejection step; with calibration count 0 (< 1) `calibrate_start` still
opens the camera before failing. The source rejects nothing at the call
boundary. -/
theorem validation_absent_cex :
    (255 : ℤ) < 300 ∧
    Effect.cameraOpen ∈ runDifTrace 300 ∧ Effect.capture ∈ runDifTrace 300 ∧
    Effect.detect ∈ runDifTrace 300 ∧ Effect.reject ∉ runDifTrace 300 ∧
    (0 : ℕ) < 1 ∧ Effect.cameraOpen ∈ calibrateTrace 0 ∧
    Effect.reject ∉ calibrateTrace 0 := by
  decide

/-- C6 amended: `run_dif` and `calibrate_start` themselves validate nothing —
their step traces never contain a rejection and do not depend on the
parameter — but the UI makes invalid values unreachable: the sensitivity
slider clamps to [0,50] ⊆ [0,255] and the calibration count comes from the
radio-button values 10, 15, 20, all at least 1. -/
theorem ui_range_guard :
    (∀ v : ℤ, 0 ≤ scaleSens v ∧ scaleSens v ≤ 50 ∧ scaleSens v ≤ 255) ∧
    calibrationCounts.all (fun c => 1 ≤ c) = true ∧
    (∀ s₁ s₂ : ℤ, runDifTrace s₁ = runDifTrace s₂) ∧
    (∀ s : ℤ, Effect.reject ∉ runDifTrace s) ∧
    (∀ n : ℕ, Effect.reject ∉ calibrateTrace n) := by
  refine ⟨?_, by decide, fun s₁ s₂ => rfl, fun s => by simp [runDifTrace], ?_⟩
  · intro v
    unfold scaleSens
    omega
  · intro n h
    rcases List.mem_cons.mp h with h1 | h2
    · exact absurd h1 (by decide)
    · obtain ⟨a, -, heq⟩ := List.mem_map.mp h2
      exact absurd heq (by decide)

/-- Witness for the amended C6 at the out-of-range slider input 300 and the
first radio-button count. -/
theorem ui_range_guard_witness :
    (0 ≤ scaleSens 300 ∧ scaleSens 300 ≤ 50 ∧ scaleSens 300 ≤ 255) ∧
    runDifTrace 300 = runDifTrace 25 ∧
    Effect.reject ∉ runDifTrace 300 ∧ Effect.reject ∉ calibrateTrace 10 :=
  ⟨ui_range_guard.1 300, ui_range_guard.2.2.1 300 25,
    ui_range_guard.2.2.2.1 300, ui_range_guard.2.2.2.2 10⟩

/-- C7: the teardown `inprogress2main` closes all three LED lines and the
trigger listener: whatever state the cycle reached, afterwards every line is
released and none is driving high, and the switch handle is no longer held. -/
theorem teardown_releases (objs : List ℕ) :
    (teardown (traceState objs)).red = none ∧
    (teardown (traceState objs)).green = none ∧
    (teardown (traceState objs)).flash = none ∧
    (teardown (traceState objs)).switch = false ∧
    isOn (teardown (traceState objs)).red = false ∧
    isOn (teardown (traceState objs)).green = false ∧
    isOn (teardown (traceState objs)).flash = false := by
  simp [teardown, closeDev, isOn]

/-- C8: for every stored shutter-speed value strictly below
`SHU_MIN + SHU_DELTA` (1100), the decrement operation reaches the branch that
evaluates the undefined name `vSHU_MIN` and therefore raises `NameError`
instead of clamping the value to `SHU_MIN`. -/
theorem shutter_sub_name_error (val : ℤ) (h : val < SHU_MIN + SHU_DELTA) :
    shutterSub val = Except.error "NameError: name vSHU_MIN is not defined" := by
  unfold shutterSub SHU_MIN SHU_MAX SHU_DELTA at *
  split_ifs with h1 h2
  · omega
  · omega
  · rfl

/-- Witness for C8 at the in-range value 1000 (= SHU_MIN). -/
theorem shutter_sub_name_error_witness :
    (1000 : ℤ) < SHU_MIN + SHU_DELTA ∧
    shutterSub 1000 = Except.error "NameError: name vSHU_MIN is not defined" :=
  ⟨by decide, shutter_sub_name_error 1000 (by decide)⟩

/-- C9: for every integer starting value, both brightness operations land in
[0, 100]: the increment clamps to 100 above `100 - BRI_DELTA` and to 0 below
0, and the decrement clamps to 100 above 100 and to 0 below `BRI_DELTA`. -/
theorem brightness_range (val : ℤ) :
    0 ≤ briAdd val ∧ briAdd val ≤ 100 ∧ 0 ≤ briSub val ∧ briSub val ≤ 100 ∧
    (100 - BRI_DELTA < val → briAdd val = 100) ∧ (val < 0 → briAdd val = 0) ∧
    (100 < val → briSub val = 100) ∧ (val < BRI_DELTA → briSub val = 0) := by
  unfold briAdd briSub BRI_DELTA
  split_ifs <;> omega

/-- Witness for C9 at the out-of-range values 150, -3 and the boundary
value 3. -/
theorem brightness_range_witness :
    briAdd 150 = 100 ∧ briSub 150 = 100 ∧ briAdd (-3) = 0 ∧ briSub 3 = 0 ∧
    0 ≤ briAdd 97 ∧ briAdd 97 ≤ 100 :=
  ⟨(brightness_range 150).2.2.2.2.1 (by decide),
    (brightness_range 150).2.2.2.2.2.2.1 (by decide),
    (brightness_range (-3)).2.2.2.2.2.1 (by decide),
    (brightness_range 3).2.2.2.2.2.2.2 (by decide),
    (brightness_range 97).1, (brightness_range 97).2.1⟩

/-- C10: a successful calibration over `n ≥ 1` captures deletes every
temporary capture file `imgXX.jpg` and leaves, of the files the run created,
only `average.jpg`; pre-existing files other than the capture names are
untouched. -/
theorem calibration_cleanup (n : ℕ) (fs : List String) (hn : 1 ≤ n) :
    ∃ out, calibrationRun n fs = some out ∧
      (∀ g, g ∈ out ↔
        ((g ∈ fs ∧ ∀ i ∈ List.range' 1 n, g ≠ imgName i) ∨ g = "average.jpg")) ∧
      (∀ i ∈ List.range' 1 n, imgName i ∉ out) ∧
      "average.jpg" ∈ out := by
  have hne : n ≠ 0 := by omega
  have hrun : calibrationRun n fs =
      some ((List.range' 1 n).foldl (fun s i => removeFile s (imgName i))
        (addFile ((List.range' 1 n).foldl (fun s i => addFile s (imgName i)) fs)
          "average.jpg")) := by
    unfold calibrationRun
    rw [if_neg hne]
  have hchar : ∀ g, g ∈ (List.range' 1 n).foldl (fun s i => removeFile s (imgName i))
      (addFile ((List.range' 1 n).foldl (fun s i => addFile s (imgName i)) fs)
        "average.jpg") ↔
      ((g ∈ fs ∧ ∀ i ∈ List.range' 1 n, g ≠ imgName i) ∨ g = "average.jpg") := by
    intro g
    rw [mem_foldl_removeFile, mem_addFile, mem_foldl_addFile]
    constructor
    · rintro ⟨h1 | rfl, h2⟩
      · rcases h1 with h1 | ⟨i, hi, rfl⟩
        · exact Or.inl ⟨h1, h2⟩
        · exact absurd rfl (h2 i hi)
      · exact Or.inr rfl
    · rintro (⟨h1, h2⟩ | rfl)
      · exact ⟨Or.inl (Or.inl h1), h2⟩
      · exact ⟨Or.inr rfl, fun i hi h => imgName_ne_average i h.symm⟩
  refine ⟨_, hrun, hchar, ?_, (hchar _).mpr (Or.inr rfl)⟩
  intro i hi hmem
  rcases (hchar _).mp hmem with ⟨-, hall⟩ | heq
  · exact absurd rfl (hall i hi)
  · exact imgName_ne_average i heq

/-- Witness for C10 over two captures with an unrelated pre-existing file. -/
theorem calibration_cleanup_witness :
    (1 : ℕ) ≤ 2 ∧
    ∃ out, calibrationRun 2 ["old.jpg"] = some out ∧
      (∀ g, g ∈ out ↔
        ((g ∈ ["old.jpg"] ∧ ∀ i ∈ List.range' 1 2, g ≠ imgName i) ∨
          g = "average.jpg")) ∧
      (∀ i ∈ List.range' 1 2, imgName i ∉ out) ∧
      "average.jpg" ∈ out :=
  ⟨by decide, calibration_cleanup 2 ["old.jpg"] (by decide)⟩
